import Mathlib

/-!
Verification development for the fight-night-discord-bot repository.

The Go source is shallowly embedded: pure functions become Lean functions,
machine time instants (Go `time.Time`) become `Int` (UTC nanoseconds, with
Go's zero `time.Time` modelled as `0`), maps become association lists, and
fallible operations return `Option`/`Except`.  The tolerant timestamp
parsing helpers (`parseISOUTC`, `parseAPITime`), time-zone localisation
(`t.In(loc).Format(...)`) and the outbound network/send collaborators are
abstracted as explicit function/value parameters, since their internals are
irrelevant to the verified properties; witnesses instantiate them with
concrete executable functions.
-/

namespace FightNight

/-- Time instants (Go `time.Time`, UTC), as `Int` nanoseconds; `0` is Go's
zero time, so `t.IsZero()` becomes `t = 0`. -/
abbrev Instant := Int

/-! ## String helpers (Go `strings` package, ASCII fragment) -/

/-- Go `unicode.IsSpace` on the ASCII whitespace used by `strings.TrimSpace`. -/
def isSpaceChar (c : Char) : Bool :=
  c = ' ' || c = '\t' || c = '\n' || c = '\r' || c = '\x0b' || c = '\x0c'

/-- Go `strings.TrimSpace` (ASCII fragment). -/
def trimSpace (s : String) : String :=
  String.mk (((s.toList.dropWhile isSpaceChar).reverse.dropWhile isSpaceChar).reverse)

/-- ASCII lower-casing of one character (Go `strings.ToLower`, ASCII fragment). -/
def lowerChar (c : Char) : Char :=
  if 'A' ≤ c ∧ c ≤ 'Z' then Char.ofNat (c.toNat + 32) else c

/-- Go `strings.ToLower` (ASCII fragment). -/
def toLowerStr (s : String) : String :=
  String.mk (s.toList.map lowerChar)

/-- Does `l` start with `pat`? -/
def listStartsWith : List Char → List Char → Bool
  | [], _ => true
  | _ :: _, [] => false
  | p :: ps, c :: cs => p == c && listStartsWith ps cs

/-- Does `l` contain `pat` as a contiguous run? -/
def listContainsSub (pat : List Char) : List Char → Bool
  | [] => pat.isEmpty
  | c :: rest => listStartsWith pat (c :: rest) || listContainsSub pat rest

/-- Go `strings.Contains s sub`. -/
def containsSubstr (s sub : String) : Bool :=
  listContainsSub sub.toList s.toList

/-- A concrete executable timestamp parsing function used by witnesses and
counterexamples: a string of decimal digits denotes that instant. -/
def parseDecimal (s : String) : Option Instant :=
  let l := s.toList
  if l ≠ [] ∧ l.all Char.isDigit then
    some (l.foldl (fun a c => a * 10 + (Int.ofNat (c.toNat - '0'.toNat))) 0)
  else none

/-! ## Card builder (`internal/discord/embeds.go`) -/

/-- `sources.Bout` — a normalized fight within an event card.
`scheduled` is RFC3339 UTC if known (may be empty). -/
structure Bout where
  weightClass : String
  redName : String
  redRecord : String
  blueName : String
  blueRecord : String
  winner : String
  scheduled : String
deriving DecidableEq, Repr

/-- `sources.Link`. -/
structure Link where
  title : String
  url : String
deriving DecidableEq, Repr

/-- `sources.Event` — the bot's normalized event representation.
`start`/`endTime` are the Go `Start`/`End` RFC3339 strings. -/
structure SEvent where
  org : String
  id : String
  name : String
  shortName : String
  start : String
  endTime : String
  bannerURL : String
  links : List Link
  bouts : List Bout
deriving DecidableEq, Repr

/-- `parseScheduledUTC` (embeds.go): `ok = false` when the trimmed string is
empty or `parseAPITime` fails; `parseAPITime` is the abstracted `parse`. -/
def parseScheduledUTC (parse : String → Option Instant) (s : String) : Option Instant :=
  if trimSpace s = "" then none else parse s

/-- The `less` closure given to `sort.SliceStable` in `sortBouts` (embeds.go).
The Go code compares two bouts with unknown scheduled times by their current
indices (`return i < j`); under a stable sort this never reorders them, so it
is modelled as "not less" (equal rank), relying on stability. -/
def boutLess (parse : String → Option Instant) (a b : Bout) : Bool :=
  match parseScheduledUTC parse a.scheduled, parseScheduledUTC parse b.scheduled with
  | some ti, some tj => ti < tj
  | none, some _ => true
  | some _, none => false
  | none, none => false

/-- One step of the stable sort: insert `a` into the already-sorted `l`,
after every element strictly less than `a` (preserving input order on ties). -/
def orderedInsertBout (parse : String → Option Instant) (a : Bout) : List Bout → List Bout
  | [] => [a]
  | b :: l => if boutLess parse b a then b :: orderedInsertBout parse a l else a :: b :: l

/-- `sortBouts` (embeds.go): a stable sort of a copy of the input by the
`boutLess` ordering (Go `sort.SliceStable`). -/
def sortBouts (parse : String → Option Instant) (bouts : List Bout) : List Bout :=
  bouts.foldr (orderedInsertBout parse) []

/-- `splitCard` (embeds.go).  Returns `(mainCard, prelims)`:
`prelims = bs[:cutoff]`, `mainCard = bs[cutoff:]` of the time-sorted list. -/
def splitCard (parse : String → Option Instant) (bouts : List Bout) : List Bout × List Bout :=
  if bouts = [] then ([], [])
  else
    let bs := sortBouts parse bouts
    let n := bs.length
    let cutoff := if n ≥ 10 then n - 6 else if n ≥ 6 then n - 3 else n
    (bs.drop cutoff, bs.take cutoff)

/-- `reverseBouts` (embeds.go): a reversed copy. -/
def reverseBouts (l : List Bout) : List Bout := l.reverse

/-- `isContenderSeries` (embeds.go). -/
def isContenderSeries (e : SEvent) : Bool :=
  let name := toLowerStr (trimSpace e.name)
  let short := toLowerStr (trimSpace e.shortName)
  containsSubstr name "contender series" || containsSubstr short "contender series"

/-- The card-breakdown portion of `buildEventEmbed` (embeds.go lines 61-79):
the pair of bout lists rendered as the "Main Card" and "Prelims" fields. -/
def cardBreakdown (parse : String → Option Instant) (e : SEvent) : List Bout × List Bout :=
  if isContenderSeries e then
    (reverseBouts (sortBouts parse e.bouts), [])
  else
    let mp := splitCard parse e.bouts
    (reverseBouts mp.1, reverseBouts mp.2)

/-! ## Calendar selector and event resolver (ESPN client, `internal/espn`) -/

/-- `espn.CalEntry`: one calendar entry of the scoreboard document.
`eventRef` is the nested `Event.$ref`. -/
structure CalEntry where
  label : String
  startDate : String
  endDate : String
  eventRef : String
deriving DecidableEq, Repr

/-- `espn.League` (just its calendar). -/
structure League where
  calendar : List CalEntry
deriving DecidableEq, Repr

/-- `espn.Event` (the fields read by the embedded functions). -/
structure EEvent where
  id : String
  name : String
  startDate : String
  endDate : String
  shortName : String
  date : String
deriving DecidableEq, Repr

/-- `espn.Root`: leagues with calendars plus embedded events. -/
structure Root where
  leagues : List League
  events : List EEvent
deriving DecidableEq, Repr

/-- `containsAnyIgnore` (espn client). -/
def containsAnyIgnore (label : String) (ignores : List String) : Bool :=
  if label = "" || ignores.isEmpty then false
  else
    let l := toLowerStr label
    ignores.any (fun s => if s = "" then false else containsSubstr l (toLowerStr s))

/-- A selection candidate: the calendar entry together with its parsed
`(stUTC, enUTC)`; `enUTC = 0` models Go's zero time (absent/unparseable end). -/
structure Cand where
  entry : CalEntry
  st : Instant
  en : Instant
deriving DecidableEq, Repr

/-- The per-entry validation prefix of the loop body of
`findNextOrOngoingEventUTC`: skip ignored labels and blank/unparseable
start dates, then compute `enUTC` (zero unless a non-blank end parses). -/
def entryCand (parse : String → Option Instant) (ignores : List String)
    (ce : CalEntry) : Option Cand :=
  if containsAnyIgnore ce.label ignores then none
  else if trimSpace ce.startDate = "" then none
  else match parse ce.startDate with
    | none => none
    | some stUTC =>
      let enUTC : Instant :=
        if trimSpace ce.endDate ≠ "" then (parse ce.endDate).getD 0 else 0
      some ⟨ce, stUTC, enUTC⟩

/-- The ONGOING test of `findNextOrOngoingEventUTC`:
`!enUTC.IsZero() && (now.Equal(st) || (now.After(st) && now.Before(en)))`. -/
def isOngoing (now : Instant) (c : Cand) : Bool :=
  c.en ≠ 0 && (now = c.st || (c.st < now && now < c.en))

/-- Keep the candidate with the strictly earlier start (first encountered
wins on ties) — the `if ongoing == nil || stUTC.Before(ongoingST)` update. -/
def minStep (acc : Option Cand) (c : Cand) : Option Cand :=
  match acc with
  | none => some c
  | some o => if c.st < o.st then some c else acc

/-- One iteration of the calendar loop of `findNextOrOngoingEventUTC`,
updating the `(ongoing, next)` accumulator pair. -/
def selStep (parse : String → Option Instant) (ignores : List String) (now : Instant)
    (acc : Option Cand × Option Cand) (ce : CalEntry) : Option Cand × Option Cand :=
  match entryCand parse ignores ce with
  | none => acc
  | some c =>
    if isOngoing now c then (minStep acc.1 c, acc.2)
    else if now < c.st then (acc.1, minStep acc.2 c)
    else acc

/-- Which way the selected entry was classified. -/
inductive Tag where
  | ongoing
  | next
deriving DecidableEq, Repr

/-- `findNextOrOngoingEventUTC` (espn client): walk every league's calendar,
keep the earliest-start ongoing and the earliest-start future candidates,
prefer ongoing; `none` models the `errNoEventSelected` return. -/
def findNextOrOngoingEventUTC (parse : String → Option Instant) (ignores : List String)
    (root : Root) (now : Instant) : Option (Cand × Tag) :=
  match ((root.leagues.map League.calendar).flatten).foldl
      (selStep parse ignores now) (none, none) with
  | (some o, _) => some (o, Tag.ongoing)
  | (none, some nx) => some (nx, Tag.next)
  | (none, none) => none

/-- The flattened list of candidates that survive the loop's validation,
in encounter order. -/
def validCands (parse : String → Option Instant) (ignores : List String)
    (root : Root) : List Cand :=
  ((root.leagues.map League.calendar).flatten).filterMap (entryCand parse ignores)

/-- Modelled from the spec's words ("keep the one with the earliest start,
tie-break: stable input order"): the first element attaining the minimal
start, as a structural recursion — the head wins unless a strictly earlier
start occurs later. -/
def selectEarliest : List Cand → Option Cand
  | [] => none
  | c :: l =>
    match selectEarliest l with
    | none => some c
    | some m => if m.st < c.st then some m else some c

/-- The spec/claim notion of "ongoing": `now ∈ [start, end)` inclusive of
the start instant, for an entry with an end time. -/
def specOngoingClaim (now stUTC enUTC : Instant) : Prop :=
  stUTC ≤ now ∧ now < enUTC

/-- The NEXT-branch guard of the selector loop: not ongoing and
`stUTC.After(nowUTC)`. -/
def futureCand (now : Instant) (c : Cand) : Bool :=
  !isOngoing now c && decide (now < c.st)

/-- `eventIDFromRef` digit scan: the Go regexp `/events/(\d+)` — the
leftmost position where `/events/` is followed by at least one digit,
capturing the maximal digit run. -/
def eventIDAux : List Char → Option String
  | [] => none
  | c :: rest =>
    if listStartsWith "/events/".toList (c :: rest) then
      let ds := ((c :: rest).drop 8).takeWhile Char.isDigit
      if ds.isEmpty then eventIDAux rest else some (String.mk ds)
    else eventIDAux rest

/-- `eventIDFromRef` (espn client). -/
def eventIDFromRef (ref : String) : Option String :=
  if ref = "" then none else eventIDAux ref.toList

/-- `similarName` (espn client). -/
def similarName (a b : String) : Bool :=
  if a = "" || b = "" then false
  else
    let al := toLowerStr a
    let bl := toLowerStr b
    al = bl || containsSubstr al bl || containsSubstr bl al

/-- Go `48 * time.Hour` in nanoseconds. -/
def dur48h : Instant := 48 * 60 * 60 * 1000000000

/-- `|d|` on Go durations (`if dt < 0 { dt = -dt }`). -/
def absDur (d : Instant) : Instant := if d < 0 then -d else d

/-- `resolveFullEvent` (espn client).  `fetchTier` abstracts the network
tier: `none` models a nil `httpClient`; `some r` models the outcome of the
HTTP GET + decode of `pick.Event.Ref` (an error or a decoded event). -/
def resolveFullEvent (parse : String → Option Instant) (root : Root)
    (pick : Option CalEntry) (allowFetch : Bool)
    (fetchTier : Option (Except String EEvent)) : Except String EEvent :=
  match pick with
  | none => Except.error "nil calendar entry"
  | some p =>
    let tier1 : Option EEvent :=
      match eventIDFromRef p.eventRef with
      | some id => root.events.find? (fun e => e.id == id)
      | none => none
    match tier1 with
    | some e => Except.ok e
    | none =>
      let pickStart := (parse p.startDate).getD 0
      let tier2 : Option EEvent := root.events.find? (fun ev =>
        match parse ev.date with
        | none => false
        | some evT =>
          absDur (evT - pickStart) ≤ dur48h &&
            (similarName ev.name p.label || similarName ev.shortName p.label ||
              similarName p.label ev.name || similarName p.label ev.shortName))
      match tier2 with
      | some e => Except.ok e
      | none =>
        if allowFetch && p.eventRef ≠ "" then
          match fetchTier with
          | some r => r
          | none => Except.error "event not found in root and fetch disabled or missing $ref"
        else Except.error "event not found in root and fetch disabled or missing $ref"

/-! ## Time-zone resolution (`internal/discord/helpers.go`) -/

/-- `guildLocation` (helpers.go).  `loadLocation` abstracts
`time.LoadLocation` (`none` = error) and `timeLocal` abstracts `time.Local`;
`tzSetting` is the guild's stored timezone and `cfgTZ` is `cfg.TZ`. -/
def guildLocation {Loc : Type} (loadLocation : String → Option Loc) (timeLocal : Loc)
    (tzSetting cfgTZ : String) : Loc × String :=
  let tzName := if tzSetting = "" then cfgTZ else tzSetting
  match loadLocation tzName with
  | some loc => (loc, tzName)
  | none => (timeLocal, tzName)

/-! ## Notification scheduler core (`notifyGuildCore`) -/

/-- The per-guild `last_posted` rows (`Store`, state/storage): org ↦ date.
Go map lookup of a missing key yields the empty string. -/
abbrev Ledger := List (String × String)

/-- Go `lastPosted[org]` (missing key gives `""`). -/
def ledgerGet (l : Ledger) (org : String) : String :=
  ((l.find? (fun p => p.1 == org)).map Prod.snd).getD ""

/-- `Store.MarkPosted` (state/storage): the SQL
`INSERT ... ON CONFLICT(guild_id, sport) DO UPDATE SET last_date` upsert,
as an association-list update for one guild. -/
def ledgerSet (l : Ledger) (org v : String) : Ledger :=
  if l.any (fun p => p.1 == org) then
    l.map (fun p => if p.1 == org then (org, v) else p)
  else l ++ [(org, v)]

/-- The environment of one `notifyGuildCore` call (notifier): the guild's
stored settings, the provider pick, the abstracted time parsing and
guild-local date formatting, the current instant, and the outcome the
channel-send collaborator would return.  `day8`/`dayKey` abstract
`t.In(loc).Format("20060102")` / `("2006-01-02")` for the guild's resolved
location.  The crosspost block is omitted: it touches neither the returned
values nor the ledger. -/
structure NotifyEnv where
  chConfigured : String
  notifyEnabled : Bool
  hasOrg : Bool
  org : String
  hasProvider : Bool
  pick : Option SEvent
  parse : String → Option Instant
  day8 : Instant → String
  dayKey : Instant → String
  now : Instant
  sendResult : Except String Unit

/-- `notifyGuildCore` (notifier): returns the updated ledger together with
`(posted, reason)`.  The Go locals `channelID`, `postDayYYYYMMDD` and
`todayKey` are inlined. -/
def notifyGuildCore (env : NotifyEnv) (force : Bool) (channelOverride : String)
    (ledger : Ledger) : Ledger × Bool × String :=
  if (if trimSpace channelOverride = "" then env.chConfigured
      else trimSpace channelOverride) = "" then
    (ledger, false, "No channel configured")
  else if !force && !env.notifyEnabled then (ledger, false, "Notifications disabled")
  else if !env.hasOrg then (ledger, false, "Organization not set")
  else if !env.hasProvider then (ledger, false, "No provider for org")
  else
    match env.pick with
    | none => (ledger, false, "No upcoming event")
    | some evt =>
      match env.parse evt.start with
      | none => (ledger, false, "Invalid event time")
      | some stUTC =>
        if !force && env.day8 env.now ≠ env.day8 stUTC then
          (ledger, false, "Not event day")
        else if !force && ledgerGet ledger env.org = env.dayKey stUTC then
          (ledger, false, "Already posted today")
        else
          match env.sendResult with
          | Except.error _ => (ledger, false, "Send failed")
          | Except.ok _ =>
            (if !force then ledgerSet ledger env.org (env.dayKey stUTC) else ledger,
             true, "OK")

/-! ## Concrete data for witnesses and counterexamples -/

/-- A bout with only a fighter name and a scheduled-time string. -/
def mkBout (n sched : String) : Bout :=
  ⟨"", n, "", "", "", "", sched⟩

/-- Five bouts with unknown scheduled times (a short card). -/
def bs5 : List Bout :=
  [mkBout "f1" "", mkBout "f2" "", mkBout "f3" "", mkBout "f4" "", mkBout "f5" ""]

/-- A Contender Series event with two timed bouts. -/
def eventCS : SEvent :=
  { org := "ufc", id := "701", name := "Dana White Contender Series Week 3",
    shortName := "DWCS", start := "100", endTime := "", bannerURL := "",
    links := [], bouts := [mkBout "a" "200", mkBout "b" "100"] }

/-- A calendar entry whose end instant equals its start instant. -/
def entryEq : CalEntry := ⟨"Card A", "100", "100", ""⟩

/-- A one-entry calendar around `entryEq`. -/
def rootEq : Root := ⟨[⟨[entryEq]⟩], []⟩

/-- A calendar entry whose end instant is strictly before its start. -/
def entryRev : CalEntry := ⟨"Card B", "200", "100", ""⟩

/-- A one-entry calendar around `entryRev`. -/
def rootRev : Root := ⟨[⟨[entryRev]⟩], []⟩

/-- An end-before-start entry whose start is the probe instant. -/
def entryRev2 : CalEntry := ⟨"Card C", "100", "50", ""⟩

/-- A one-entry calendar around `entryRev2`. -/
def rootRev2 : Root := ⟨[⟨[entryRev2]⟩], []⟩

/-- A calendar entry with no end date at all. -/
def entryNoEnd : CalEntry := ⟨"Card D", "100", "", ""⟩

/-- A one-entry calendar around `entryNoEnd`. -/
def rootNoEnd : Root := ⟨[⟨[entryNoEnd]⟩], []⟩

/-- A fetched event record with id `123`. -/
def evA : EEvent := ⟨"123", "UFC 300", "", "", "UFC300", "90"⟩

/-- A second fetched event record. -/
def evB : EEvent := ⟨"456", "Other Night", "", "", "ON", "95"⟩

/-- A calendar entry whose `$ref` encodes event id `123`. -/
def pickC5 : CalEntry := ⟨"UFC 300", "100", "", "https://api/events/123?lang=en"⟩

/-- A fetched set containing both records. -/
def rootC5 : Root := ⟨[], [evB, evA]⟩

/-- A `time.LoadLocation` stand-in that only knows `UTC` (as location `1`). -/
def loadTestTZ : String → Option Nat := fun s => if s = "UTC" then some 1 else none

/-- A fully-eligible notifier environment: channel configured, notifications
on, org set with provider, event pick parsing to instant `100`, `now` on the
event's local day, send succeeding. -/
def envW : NotifyEnv :=
  { chConfigured := "chan1", notifyEnabled := true, hasOrg := true, org := "ufc",
    hasProvider := true,
    pick := some { org := "ufc", id := "e1", name := "UFC 300", shortName := "",
                   start := "100", endTime := "", bannerURL := "", links := [],
                   bouts := [] },
    parse := parseDecimal,
    day8 := fun t => "D" ++ toString t,
    dayKey := fun t => "K" ++ toString t,
    now := 100,
    sendResult := Except.ok () }

/-! ## Lemmas: the stable bout sort -/

theorem boutLess_asymm (parse : String → Option Instant) (a b : Bout)
    (h : boutLess parse a b = true) : boutLess parse b a = false := by
  unfold boutLess at h ⊢
  rcases ha : parseScheduledUTC parse a.scheduled with _ | ta <;>
    rcases hb : parseScheduledUTC parse b.scheduled with _ | tb <;>
      simp [ha, hb] at h ⊢ <;> linarith

theorem boutLess_negtrans (parse : String → Option Instant) (a b c : Bout)
    (h1 : boutLess parse b a = false) (h2 : boutLess parse c b = false) :
    boutLess parse c a = false := by
  unfold boutLess at h1 h2 ⊢
  rcases ha : parseScheduledUTC parse a.scheduled with _ | ta <;>
    rcases hb : parseScheduledUTC parse b.scheduled with _ | tb <;>
      rcases hc : parseScheduledUTC parse c.scheduled with _ | tc <;>
        simp [ha, hb, hc] at h1 h2 ⊢ <;> linarith

theorem mem_orderedInsertBout (parse : String → Option Instant) (a z : Bout)
    (l : List Bout) (h : z ∈ orderedInsertBout parse a l) : z = a ∨ z ∈ l := by
  induction l with
  | nil => simpa [orderedInsertBout] using h
  | cons b l ih =>
    unfold orderedInsertBout at h
    by_cases hb : boutLess parse b a = true
    · rw [if_pos hb] at h
      rcases List.mem_cons.mp h with h | h
      · exact Or.inr (by simp [h])
      · rcases ih h with h | h
        · exact Or.inl h
        · exact Or.inr (List.mem_cons_of_mem _ h)
    · rw [if_neg hb] at h
      simpa using h

theorem perm_orderedInsertBout (parse : String → Option Instant) (a : Bout)
    (l : List Bout) : (orderedInsertBout parse a l).Perm (a :: l) := by
  induction l with
  | nil => simp [orderedInsertBout]
  | cons b l ih =>
    unfold orderedInsertBout
    by_cases hb : boutLess parse b a = true
    · rw [if_pos hb]
      exact ((ih.cons b).trans (List.Perm.swap a b l))
    · rw [if_neg hb]

theorem perm_sortBouts (parse : String → Option Instant) (l : List Bout) :
    (sortBouts parse l).Perm l := by
  induction l with
  | nil => simp [sortBouts]
  | cons a l ih =>
    have : sortBouts parse (a :: l) = orderedInsertBout parse a (sortBouts parse l) := rfl
    rw [this]
    exact (perm_orderedInsertBout parse a (sortBouts parse l)).trans (ih.cons a)

theorem pairwise_orderedInsertBout (parse : String → Option Instant) (a : Bout)
    (l : List Bout) (hl : l.Pairwise (fun x y => boutLess parse y x = false)) :
    (orderedInsertBout parse a l).Pairwise (fun x y => boutLess parse y x = false) := by
  induction l with
  | nil => simp [orderedInsertBout]
  | cons b l ih =>
    rcases List.pairwise_cons.mp hl with ⟨hb, hl'⟩
    unfold orderedInsertBout
    by_cases h : boutLess parse b a = true
    · rw [if_pos h]
      refine List.pairwise_cons.mpr ⟨?_, ih hl'⟩
      intro z hz
      rcases mem_orderedInsertBout parse a z l hz with rfl | hz
      · exact boutLess_asymm parse b z h
      · exact hb z hz
    · rw [if_neg h]
      refine List.pairwise_cons.mpr ⟨?_, hl⟩
      intro z hz
      rcases List.mem_cons.mp hz with rfl | hz
      · exact eq_false_of_ne_true h
      · exact boutLess_negtrans parse a b z (eq_false_of_ne_true h) (hb z hz)

theorem pairwise_sortBouts (parse : String → Option Instant) (l : List Bout) :
    (sortBouts parse l).Pairwise (fun x y => boutLess parse y x = false) := by
  induction l with
  | nil => simp [sortBouts]
  | cons a l ih => exact pairwise_orderedInsertBout parse a (sortBouts parse l) ih

theorem orderedInsertBout_unknown (parse : String → Option Instant) (a : Bout)
    (l : List Bout) (ha : parseScheduledUTC parse a.scheduled = none) :
    orderedInsertBout parse a l = a :: l := by
  cases l with
  | nil => rfl
  | cons b l =>
    have : boutLess parse b a = false := by
      unfold boutLess
      rcases hb : parseScheduledUTC parse b.scheduled with _ | tb <;> simp [ha, hb]
    simp [orderedInsertBout, this]

theorem filter_unknown_orderedInsertBout (parse : String → Option Instant) (a : Bout)
    (l : List Bout) (t : Instant) (ha : parseScheduledUTC parse a.scheduled = some t) :
    (orderedInsertBout parse a l).filter
        (fun x => (parseScheduledUTC parse x.scheduled).isNone)
      = l.filter (fun x => (parseScheduledUTC parse x.scheduled).isNone) := by
  induction l with
  | nil => simp [orderedInsertBout, ha]
  | cons b l ih =>
    unfold orderedInsertBout
    by_cases h : boutLess parse b a = true
    · rw [if_pos h]
      simp only [List.filter_cons]
      rw [ih]
    · rw [if_neg h]
      simp [List.filter_cons, ha]

theorem filter_unknown_sortBouts (parse : String → Option Instant) (l : List Bout) :
    (sortBouts parse l).filter (fun x => (parseScheduledUTC parse x.scheduled).isNone)
      = l.filter (fun x => (parseScheduledUTC parse x.scheduled).isNone) := by
  induction l with
  | nil => rfl
  | cons a l ih =>
    have hs : sortBouts parse (a :: l) = orderedInsertBout parse a (sortBouts parse l) := rfl
    rcases ha : parseScheduledUTC parse a.scheduled with _ | t
    · rw [hs, orderedInsertBout_unknown parse a _ ha]
      simp only [List.filter_cons, ha]
      rw [ih]
    · rw [hs, filter_unknown_orderedInsertBout parse a _ t ha, ih]
      simp [List.filter_cons, ha]

/-! ## Claim C3 (code bug) and C4, C9 -/

/-- Claim C3: the spec (and the code's own inline comment, "everything main
when short card") says a card with fewer than 6 bouts puts everything in the
main card with an empty prelims list.  Evaluating `splitCard` at a concrete
5-bout card shows the code does the opposite: the main card is empty and all
5 bouts land in prelims (`cutoff = n` routes `bs[:n]` to prelims). -/
theorem splitCard_short_card_all_prelims :
    splitCard parseDecimal bs5 = ([], bs5) ∧ bs5.length = 5 := by
  constructor
  · rfl
  · rfl

/-- Claim C4: the pre-reversal sort `sortBouts` (i) orders bouts with known
scheduled times ascending by that time, (ii) never places a bout with a
known time before one with an unknown time, and (iii) preserves the relative
input order among the bouts with unknown times. -/
theorem sortBouts_ordering_spec (parse : String → Option Instant) (bs : List Bout) :
    ((sortBouts parse bs).Pairwise (fun a b => ∀ ta tb,
        parseScheduledUTC parse a.scheduled = some ta →
        parseScheduledUTC parse b.scheduled = some tb → ta ≤ tb))
    ∧ ((sortBouts parse bs).Pairwise (fun a b =>
        (parseScheduledUTC parse a.scheduled).isSome = true →
        (parseScheduledUTC parse b.scheduled).isSome = true))
    ∧ (sortBouts parse bs).filter (fun x => (parseScheduledUTC parse x.scheduled).isNone)
        = bs.filter (fun x => (parseScheduledUTC parse x.scheduled).isNone) := by
  refine ⟨?_, ?_, filter_unknown_sortBouts parse bs⟩
  · refine (pairwise_sortBouts parse bs).imp ?_
    intro a b h ta tb hta htb
    unfold boutLess at h
    rw [hta, htb] at h
    simp at h
    linarith
  · refine (pairwise_sortBouts parse bs).imp ?_
    intro a b h hsa
    unfold boutLess at h
    rcases ha : parseScheduledUTC parse a.scheduled with _ | ta
    · rw [ha] at hsa
      simp at hsa
    · rcases hb : parseScheduledUTC parse b.scheduled with _ | tb
      · rw [ha, hb] at h
        simp at h
      · simp [hb]

/-- Witness for C4 at a concrete card: the relative order of the two
unknown-time bouts survives the sort. -/
theorem sortBouts_ordering_spec_witness :
    (sortBouts parseDecimal [mkBout "x" "", mkBout "y" "300", mkBout "z" ""]).filter
        (fun x => (parseScheduledUTC parseDecimal x.scheduled).isNone)
      = ([mkBout "x" "", mkBout "y" "300", mkBout "z" ""]).filter
        (fun x => (parseScheduledUTC parseDecimal x.scheduled).isNone) :=
  (sortBouts_ordering_spec parseDecimal
    [mkBout "x" "", mkBout "y" "300", mkBout "z" ""]).2.2

/-- Claim C9: for an event carrying the no-prelims marker ("contender
series", case-insensitive, in name or short name) the displayed card
breakdown routes every bout to the main-card section — the prelims list is
empty and the main list is the reverse of the time-sorted bout list (hence a
permutation of all the event's bouts). -/
theorem contenderSeries_routes_all_to_main (parse : String → Option Instant)
    (e : SEvent) (h : isContenderSeries e = true) :
    cardBreakdown parse e = (reverseBouts (sortBouts parse e.bouts), [])
    ∧ (cardBreakdown parse e).1.Perm e.bouts := by
  have hb : cardBreakdown parse e = (reverseBouts (sortBouts parse e.bouts), []) := by
    unfold cardBreakdown
    rw [if_pos h]
  refine ⟨hb, ?_⟩
  rw [hb]
  exact (List.reverse_perm _).trans (perm_sortBouts parse e.bouts)

/-- Witness for C9 at a concrete Contender Series event with two bouts. -/
theorem contenderSeries_routes_all_to_main_witness :
    isContenderSeries eventCS = true
    ∧ cardBreakdown parseDecimal eventCS
        = (reverseBouts (sortBouts parseDecimal eventCS.bouts), [])
    ∧ (cardBreakdown parseDecimal eventCS).1.Perm eventCS.bouts := by
  have h : isContenderSeries eventCS = true := by decide
  exact ⟨h, (contenderSeries_routes_all_to_main parseDecimal eventCS h).1,
    (contenderSeries_routes_all_to_main parseDecimal eventCS h).2⟩

/-! ## Lemmas: the calendar selector loop -/

theorem foldl_selStep_split (parse : String → Option Instant) (ignores : List String)
    (now : Instant) (l : List CalEntry) :
    ∀ o n : Option Cand,
    l.foldl (selStep parse ignores now) (o, n)
      = (((l.filterMap (entryCand parse ignores)).filter
            (fun c => isOngoing now c)).foldl minStep o,
         ((l.filterMap (entryCand parse ignores)).filter (futureCand now)).foldl minStep n) := by
  induction l with
  | nil => intro o n; rfl
  | cons ce l ih =>
    intro o n
    rw [List.foldl_cons, List.filterMap_cons]
    cases hce : entryCand parse ignores ce with
    | none =>
      have hstep : selStep parse ignores now (o, n) ce = (o, n) := by
        simp [selStep, hce]
      rw [hstep]
      exact ih o n
    | some c =>
      by_cases hog : isOngoing now c = true
      · have hstep : selStep parse ignores now (o, n) ce = (minStep o c, n) := by
          simp [selStep, hce, hog]
        have hfut : futureCand now c = false := by
          simp [futureCand, hog]
        rw [hstep, ih (minStep o c) n]
        simp [List.filter_cons, hog, hfut]
      · have hog' : isOngoing now c = false := eq_false_of_ne_true hog
        by_cases hnx : now < c.st
        · have hstep : selStep parse ignores now (o, n) ce = (o, minStep n c) := by
            simp [selStep, hce, hog', hnx]
          have hfut : futureCand now c = true := by
            simp [futureCand, hog', hnx]
          rw [hstep, ih o (minStep n c)]
          simp [List.filter_cons, hog', hfut]
        · have hstep : selStep parse ignores now (o, n) ce = (o, n) := by
            simp [selStep, hce, hog', hnx]
          have hfut : futureCand now c = false := by
            simp [futureCand, hog', hnx]
          rw [hstep, ih o n]
          simp [List.filter_cons, hog', hfut]

theorem foldl_minStep_some (l : List Cand) :
    ∀ m : Cand,
    l.foldl minStep (some m)
      = (match selectEarliest l with
         | none => some m
         | some r => if r.st < m.st then some r else some m) := by
  induction l with
  | nil => intro m; rfl
  | cons c l ih =>
    intro m
    rw [List.foldl_cons]
    have hm : minStep (some m) c = some (if c.st < m.st then c else m) := by
      by_cases h : c.st < m.st <;> simp [minStep, h]
    rw [hm, ih]
    rcases hse : selectEarliest l with _ | r
    · by_cases h1 : c.st < m.st <;> simp [selectEarliest, hse, h1]
    · by_cases h1 : c.st < m.st <;> by_cases h2 : r.st < c.st <;>
        simp only [selectEarliest, hse, h1, h2, if_true, if_false, ite_true, ite_false] <;>
        first
          | rfl
          | (split_ifs with h3 <;> first | rfl | (exfalso; linarith))

theorem foldl_minStep_none (l : List Cand) :
    l.foldl minStep none = selectEarliest l := by
  cases l with
  | nil => rfl
  | cons c l =>
    rw [List.foldl_cons]
    have h0 : minStep none c = some c := rfl
    rw [h0, foldl_minStep_some l c]
    rcases hse : selectEarliest l with _ | r <;> simp [selectEarliest, hse]

/-- The loop of `findNextOrOngoingEventUTC` refines the spec's selection:
prefer the earliest-start (first-encountered on ties) ongoing candidate,
else the earliest-start future candidate. -/
theorem find_characterization (parse : String → Option Instant) (ignores : List String)
    (root : Root) (now : Instant) :
    findNextOrOngoingEventUTC parse ignores root now
      = (match selectEarliest ((validCands parse ignores root).filter
            (fun c => isOngoing now c)) with
         | some o => some (o, Tag.ongoing)
         | none =>
           (selectEarliest ((validCands parse ignores root).filter (futureCand now))).map
             (fun c => (c, Tag.next))) := by
  unfold findNextOrOngoingEventUTC validCands
  rw [foldl_selStep_split parse ignores now _ none none,
    foldl_minStep_none, foldl_minStep_none]
  rcases h1 : selectEarliest (((root.leagues.map League.calendar).flatten.filterMap
      (entryCand parse ignores)).filter (fun c => isOngoing now c)) with _ | o
  · rcases h2 : selectEarliest (((root.leagues.map League.calendar).flatten.filterMap
        (entryCand parse ignores)).filter (futureCand now)) with _ | nx <;> simp
  · simp

theorem selectEarliest_cons (c : Cand) (l : List Cand) :
    selectEarliest (c :: l)
      = (match selectEarliest l with
         | none => some c
         | some m => if m.st < c.st then some m else some c) := rfl

theorem selectEarliest_nil_of_none (l : List Cand)
    (h : selectEarliest l = none) : l = [] := by
  cases l with
  | nil => rfl
  | cons c l =>
    rw [selectEarliest_cons] at h
    rcases hse : selectEarliest l with _ | m <;> simp [hse] at h
    split at h <;> simp at h

theorem selectEarliest_mem (l : List Cand) :
    ∀ x : Cand, selectEarliest l = some x → x ∈ l := by
  induction l with
  | nil => intro x h; simp [selectEarliest] at h
  | cons c l ih =>
    intro x h
    rw [selectEarliest_cons] at h
    rcases hse : selectEarliest l with _ | m <;> simp only [hse] at h
    · injection h with h
      simp [h]
    · by_cases hm : m.st < c.st
      · rw [if_pos hm] at h
        injection h with h
        subst h
        exact List.mem_cons_of_mem c (ih m hse)
      · rw [if_neg hm] at h
        injection h with h
        simp [h]

theorem selectEarliest_min (l : List Cand) :
    ∀ x : Cand, selectEarliest l = some x → ∀ y ∈ l, x.st ≤ y.st := by
  induction l with
  | nil => intro x h; simp [selectEarliest] at h
  | cons c l ih =>
    intro x h
    rw [selectEarliest_cons] at h
    rcases hse : selectEarliest l with _ | m <;> simp only [hse] at h
    · injection h with h
      subst h
      intro y hy
      rcases List.mem_cons.mp hy with rfl | hy
      · exact le_refl _
      · exact absurd hy (by simp [selectEarliest_nil_of_none l hse])
    · by_cases hm : m.st < c.st
      · rw [if_pos hm] at h
        injection h with h
        subst h
        intro y hy
        rcases List.mem_cons.mp hy with rfl | hy
        · exact le_of_lt hm
        · exact ih m hse y hy
      · rw [if_neg hm] at h
        injection h with h
        subst h
        intro y hy
        rcases List.mem_cons.mp hy with rfl | hy
        · exact le_refl _
        · exact le_trans (not_lt.mp hm) (ih m hse y hy)

theorem selectEarliest_ne_none (l : List Cand) (h : l ≠ []) :
    ∃ x, selectEarliest l = some x := by
  cases l with
  | nil => exact absurd rfl h
  | cons c l =>
    rw [selectEarliest_cons]
    rcases hse : selectEarliest l with _ | m
    · exact ⟨c, rfl⟩
    · refine ⟨if m.st < c.st then m else c, ?_⟩
      by_cases hm : m.st < c.st <;> simp [hm]

theorem entryCand_fields (parse : String → Option Instant) (ignores : List String)
    (ce : CalEntry) (c : Cand) (h : entryCand parse ignores ce = some c) :
    c.entry = ce
    ∧ parse ce.startDate = some c.st
    ∧ c.en = (if trimSpace ce.endDate ≠ "" then (parse ce.endDate).getD 0 else 0) := by
  unfold entryCand at h
  split at h
  · exact absurd h (by simp)
  · split at h
    · exact absurd h (by simp)
    · rcases hp : parse ce.startDate with _ | stUTC <;> rw [hp] at h
      · exact absurd h (by simp)
      · simp at h
        subst h
        refine ⟨rfl, rfl, ?_⟩
        by_cases he : trimSpace ce.endDate = "" <;> simp [he]

/-! ## Claims C2 and C6 (both corrected) -/

/-- Counterexample to claim C2 as stated: for an entry whose end instant
equals its start instant (allowed even by the spec's `end ≥ start`
invariant), probing at `now = start` the selector returns the entry tagged
ongoing, although `now` does not lie in `[start, end) = [100, 100) = ∅` —
the code treats `now = start` as ongoing whenever an end time exists. -/
theorem findNextOrOngoing_start_instant_counterexample :
    findNextOrOngoingEventUTC parseDecimal [] rootEq 100
      = some (⟨entryEq, 100, 100⟩, Tag.ongoing)
    ∧ ¬ specOngoingClaim 100 100 100 := by
  constructor
  · rfl
  · simp [specOngoingClaim]

/-- Claim C2 (amended): the selector classifies a valid entry as ongoing iff
its end time parses to a non-zero instant and `now = start` or
`start < now < end` (so the start instant itself always counts as ongoing
when an end exists, even when `end ≤ start`); among ongoing entries it
returns the earliest start (first encountered wins ties), else among entries
with `start > now` the earliest start (same tie-break) — stated as a
refinement against the spec-worded `selectEarliest` — and an entry with a
blank end time is never classified ongoing. -/
theorem findNextOrOngoing_selection_spec (parse : String → Option Instant)
    (ignores : List String) (root : Root) (now : Instant) :
    (findNextOrOngoingEventUTC parse ignores root now
      = (match selectEarliest ((validCands parse ignores root).filter
            (fun c => isOngoing now c)) with
         | some o => some (o, Tag.ongoing)
         | none =>
           (selectEarliest ((validCands parse ignores root).filter (futureCand now))).map
             (fun c => (c, Tag.next))))
    ∧ (∀ c : Cand, (isOngoing now c = true
        ↔ (c.en ≠ 0 ∧ (now = c.st ∨ (c.st < now ∧ now < c.en)))))
    ∧ (∀ c ∈ validCands parse ignores root,
        trimSpace c.entry.endDate = "" → isOngoing now c = false) := by
  refine ⟨find_characterization parse ignores root now, ?_, ?_⟩
  · intro c
    simp [isOngoing]
  · intro c hc hend
    rcases List.mem_filterMap.mp hc with ⟨ce, _, hce⟩
    rcases entryCand_fields parse ignores ce c hce with ⟨hentry, _, hen⟩
    rw [← hentry] at hen
    rw [hend] at hen
    simp at hen
    simp [isOngoing, hen]

/-- Witness for C2 at concrete inputs: a valid entry with a blank end date
is not classified ongoing at its own start instant. -/
theorem findNextOrOngoing_selection_spec_witness :
    (⟨entryNoEnd, 100, 0⟩ : Cand) ∈ validCands parseDecimal [] rootNoEnd
    ∧ isOngoing 100 ⟨entryNoEnd, 100, 0⟩ = false := by
  have hmem : (⟨entryNoEnd, 100, 0⟩ : Cand) ∈ validCands parseDecimal [] rootNoEnd := by
    decide
  exact ⟨hmem, (findNextOrOngoing_selection_spec parseDecimal [] rootNoEnd 100).2.2
    ⟨entryNoEnd, 100, 0⟩ hmem (by decide)⟩

/-- Counterexample to claim C6 as stated: an entry whose parsed end (100) is
strictly before its parsed start (200) is not excluded by the selector — at
`now = 50` it is selected as the future entry. -/
theorem selector_end_before_start_counterexample :
    findNextOrOngoingEventUTC parseDecimal [] rootRev 50
      = some (⟨entryRev, 200, 100⟩, Tag.next)
    ∧ (100 : Instant) < 200 := by
  constructor
  · rfl
  · norm_num

/-- Claim C6 (amended): an entry whose parsed end is earlier than its parsed
start is never selected as ongoing except at the exact instant `now = start`;
it is not excluded, though — it still participates as a future candidate
(when `start > now` and some valid entry is future, the selector returns a
result rather than an error), and its presence never causes an error. -/
theorem selector_end_before_start_behavior :
    (∀ (parse : String → Option Instant) (ignores : List String) (root : Root)
      (now : Instant) (c : Cand),
      findNextOrOngoingEventUTC parse ignores root now = some (c, Tag.ongoing) →
      c.en < c.st → now = c.st)
    ∧ (∀ (parse : String → Option Instant) (ignores : List String) (root : Root)
      (now : Instant) (c : Cand),
      c ∈ validCands parse ignores root → isOngoing now c = false → now < c.st →
      findNextOrOngoingEventUTC parse ignores root now ≠ none) := by
  constructor
  · intro parse ignores root now c hfind hrev
    rw [find_characterization parse ignores root now] at hfind
    rcases hog : selectEarliest ((validCands parse ignores root).filter
        (fun c => isOngoing now c)) with _ | o
    · rw [hog] at hfind
      simp only [Option.map] at hfind
      rcases hfu : selectEarliest ((validCands parse ignores root).filter
          (futureCand now)) with _ | nx <;> rw [hfu] at hfind <;> simp at hfind
    · rw [hog] at hfind
      simp at hfind
      obtain rfl := hfind
      have hmem := selectEarliest_mem _ _ hog
      have hongoing : isOngoing now o = true := (List.mem_filter.mp hmem).2
      rcases (by simpa [isOngoing] using hongoing :
          o.en ≠ 0 ∧ (now = o.st ∨ (o.st < now ∧ now < o.en))) with ⟨_, h | h⟩
      · exact h
      · linarith [h.1, h.2, hrev]
  · intro parse ignores root now c hmem hnog hfut
    rw [find_characterization parse ignores root now]
    rcases hog : selectEarliest ((validCands parse ignores root).filter
        (fun c => isOngoing now c)) with _ | o
    · have hcf : c ∈ (validCands parse ignores root).filter (futureCand now) := by
        refine List.mem_filter.mpr ⟨hmem, ?_⟩
        simp [futureCand, hnog, hfut]
      rcases selectEarliest_ne_none _ (List.ne_nil_of_mem hcf) with ⟨x, hx⟩
      rw [hx]
      simp
    · simp

/-- Witness for C6: the amended theorem applied at `rootRev2` (start 100,
end 50, probed at `now = 100`, where the entry is selected as ongoing) and
at `rootRev` (start 200, end 100, probed at `now = 50`, where it is a future
candidate and the selector returns a result). -/
theorem selector_end_before_start_behavior_witness :
    (100 : Instant) = (⟨entryRev2, 100, 50⟩ : Cand).st
    ∧ findNextOrOngoingEventUTC parseDecimal [] rootRev 50 ≠ none := by
  constructor
  · exact selector_end_before_start_behavior.1 parseDecimal [] rootRev2 100
      ⟨entryRev2, 100, 50⟩ (by rfl) (by norm_num)
  · exact selector_end_before_start_behavior.2 parseDecimal [] rootRev 50
      ⟨entryRev, 200, 100⟩ (by decide) (by decide) (by norm_num)

/-! ## Claim C5: the resolver's id tier -/

/-- Claim C5: when the calendar entry's `$ref` encodes an event id (a
`/events/<digits>` segment) that is the ID of a record in the fetched set,
`resolveFullEvent` returns exactly that record (the first with that id) —
for every fuzzy-tier input (`parse` and the other records' names/dates are
arbitrary) and every network-tier outcome (`allowFetch`, `fetchTier`
arbitrary), so tiers 2 and 3 cannot influence the result. -/
theorem resolveFullEvent_id_tier (parse : String → Option Instant) (root : Root)
    (p : CalEntry) (allowFetch : Bool) (fetchTier : Option (Except String EEvent))
    (id : String) (e : EEvent)
    (hid : eventIDFromRef p.eventRef = some id)
    (hfind : root.events.find? (fun ev => ev.id == id) = some e) :
    resolveFullEvent parse root (some p) allowFetch fetchTier = Except.ok e := by
  simp only [resolveFullEvent, hid, hfind]

/-- Witness for C5: a `$ref` encoding id 123 that is present in the fetched
set resolves to that record even when the network tier would error. -/
theorem resolveFullEvent_id_tier_witness :
    resolveFullEvent parseDecimal rootC5 (some pickC5) true
        (some (Except.error "network down")) = Except.ok evA :=
  resolveFullEvent_id_tier parseDecimal rootC5 pickC5 true
    (some (Except.error "network down")) "123" evA (by decide) (by decide)

/-! ## Claim C8 (corrected): invalid time-zone fallback -/

/-- Counterexample to claim C8 as stated: with a malformed (non-empty,
unloadable) guild timezone "Bad/Zone" and a loadable `cfg.TZ = "UTC"`
(location 1), `guildLocation` returns the process-local location (0), not
the `cfg.TZ` location. -/
theorem guildLocation_invalid_tz_counterexample :
    guildLocation loadTestTZ (0 : Nat) "Bad/Zone" "UTC" = (0, "Bad/Zone")
    ∧ loadTestTZ "UTC" = some 1
    ∧ (guildLocation loadTestTZ (0 : Nat) "Bad/Zone" "UTC").1 ≠ 1 := by
  refine ⟨rfl, rfl, by decide⟩

/-- Claim C8 (amended): for a malformed (non-empty but unloadable) guild
timezone, `guildLocation` silently falls back to the process-local zone
(`time.Local`), not to `cfg.TZ` — `cfg.TZ` is consulted only when the guild
timezone is unset — and the guild's tick is not failed: a location is
always returned, paired with the (still malformed) timezone name. -/
theorem guildLocation_invalid_tz_falls_back_local {Loc : Type}
    (loadLocation : String → Option Loc) (timeLocal : Loc) (tzSetting cfgTZ : String)
    (hne : tzSetting ≠ "") (hload : loadLocation tzSetting = none) :
    guildLocation loadLocation timeLocal tzSetting cfgTZ = (timeLocal, tzSetting) := by
  simp only [guildLocation, if_neg hne, hload]

/-- Witness for C8's amended theorem at the concrete malformed zone. -/
theorem guildLocation_invalid_tz_falls_back_local_witness :
    guildLocation loadTestTZ (7 : Nat) "Bad/Zone" "America/NotAZone" = (7, "Bad/Zone") :=
  guildLocation_invalid_tz_falls_back_local loadTestTZ 7 "Bad/Zone" "America/NotAZone"
    (by decide) (by decide)

/-! ## Lemmas: the dedup ledger -/

theorem ledgerGet_append_single_self (org v : String) (l : Ledger)
    (h : l.any (fun p => p.1 == org) = false) :
    ledgerGet (l ++ [(org, v)]) org = v := by
  induction l with
  | nil =>
    unfold ledgerGet
    rw [List.nil_append, List.find?_cons_of_pos _ (by simp)]
    rfl
  | cons p l ih =>
    rw [List.any_cons] at h
    rcases Bool.or_eq_false_iff.mp h with ⟨hp, hl⟩
    unfold ledgerGet at ih ⊢
    rw [List.cons_append, List.find?_cons_of_neg _ (by simp [hp])]
    exact ih hl

theorem ledgerGet_map_update_self (org v : String) (l : Ledger)
    (h : l.any (fun p => p.1 == org) = true) :
    ledgerGet (l.map (fun p => if p.1 == org then (org, v) else p)) org = v := by
  induction l with
  | nil => simp at h
  | cons p l ih =>
    rw [List.map_cons]
    by_cases hp : (p.1 == org) = true
    · rw [if_pos hp]
      unfold ledgerGet
      rw [List.find?_cons_of_pos _ (by simp)]
      rfl
    · rw [if_neg hp]
      rw [List.any_cons] at h
      rcases Bool.or_eq_true_iff.mp h with hph | hl
      · exact absurd hph hp
      · unfold ledgerGet at ih ⊢
        rw [List.find?_cons_of_neg _ (by simp_all)]
        exact ih hl

theorem ledgerGet_ledgerSet_self (l : Ledger) (org v : String) :
    ledgerGet (ledgerSet l org v) org = v := by
  unfold ledgerSet
  by_cases h : l.any (fun p => p.1 == org) = true
  · rw [if_pos h]
    exact ledgerGet_map_update_self org v l h
  · rw [if_neg h]
    exact ledgerGet_append_single_self org v l (Bool.eq_false_iff.mpr h)

/-! ## Claims C1, C7, C10: the scheduler's dedup behaviour -/

/-- Claim C7: the dedup ledger survives a failed send — if the channel send
returns an error the ledger is bit-for-bit unchanged, and conversely any
ledger change implies the send returned without error (the write happens
only after a successful send). -/
theorem notifyGuildCore_send_failure_preserves_ledger (env : NotifyEnv) (force : Bool)
    (co : String) (ledger : Ledger) :
    (∀ msg, env.sendResult = Except.error msg →
      (notifyGuildCore env force co ledger).1 = ledger)
    ∧ ((notifyGuildCore env force co ledger).1 ≠ ledger →
      env.sendResult = Except.ok ()) := by
  have master : (notifyGuildCore env force co ledger).1 = ledger
      ∨ ∃ u, env.sendResult = Except.ok u := by
    unfold notifyGuildCore
    repeat' split
    all_goals try exact Or.inl rfl
    all_goals exact Or.inr ⟨_, by assumption⟩
  constructor
  · intro msg hmsg
    rcases master with h | ⟨u, h⟩
    · exact h
    · rw [hmsg] at h
      exact absurd h (by simp)
  · intro hne
    rcases master with h | ⟨u, h⟩
    · exact absurd h hne
    · cases u
      exact h

/-- Witness for C7: a failing send leaves a concrete one-row ledger
untouched. -/
theorem notifyGuildCore_send_failure_preserves_ledger_witness :
    (notifyGuildCore { envW with sendResult := Except.error "boom" } false ""
        [("ufc", "K99")]).1 = [("ufc", "K99")] :=
  (notifyGuildCore_send_failure_preserves_ledger
    { envW with sendResult := Except.error "boom" } false "" [("ufc", "K99")]).1
    "boom" rfl

/-- Claim C10: a forced (`force = true`) call never writes the dedup ledger
— whatever the send outcome — and bypasses both the event-day gate and the
already-posted check (its reason is never "Not event day" nor "Already
posted today"); yet a forced call can send (a concrete forced call posts). -/
theorem notifyGuildCore_forced_no_ledger_write (env : NotifyEnv) (co : String)
    (ledger : Ledger) :
    (notifyGuildCore env true co ledger).1 = ledger
    ∧ (notifyGuildCore env true co ledger).2.2 ≠ "Not event day"
    ∧ (notifyGuildCore env true co ledger).2.2 ≠ "Already posted today"
    ∧ ∃ env2 ledger2, (notifyGuildCore env2 true "" ledger2).2.1 = true := by
  refine ⟨?_, ?_, ?_, ⟨envW, [], by rfl⟩⟩ <;>
    · unfold notifyGuildCore
      repeat' split
      all_goals simp_all

/-- Claim C1 helper shape: what a successful non-forced post looks like. -/
theorem notifyGuildCore_posted_inversion (env : NotifyEnv) (co : String)
    (ledger : Ledger)
    (h : (notifyGuildCore env false co ledger).2.1 = true) :
    ∃ evt stUTC,
      env.pick = some evt ∧ env.parse evt.start = some stUTC ∧
      (if trimSpace co = "" then env.chConfigured else trimSpace co) ≠ "" ∧
      env.notifyEnabled = true ∧ env.hasOrg = true ∧ env.hasProvider = true ∧
      env.day8 env.now = env.day8 stUTC ∧
      ledgerGet ledger env.org ≠ env.dayKey stUTC ∧
      env.sendResult = Except.ok () ∧
      notifyGuildCore env false co ledger
        = (ledgerSet ledger env.org (env.dayKey stUTC), true, "OK") := by
  unfold notifyGuildCore at h ⊢
  repeat' split at h
  all_goals simp_all

/-- Claim C1: scheduler idempotence.  Running the non-forced due-tick logic
twice in succession for the same guild with the same environment (same
guild settings, provider pick, and local calendar date; the two send
outcomes may differ) sends at most one message, and when the first call
posts, the second finds `lastPosted[org]` equal to that date and returns
`(false, "Already posted today")` without changing the ledger. -/
theorem notifyGuildCore_idempotent_same_day (env : NotifyEnv)
    (s1 s2 : Except String Unit) (co : String) (ledger : Ledger) :
    ((notifyGuildCore { env with sendResult := s1 } false co ledger).2.1 = true →
      notifyGuildCore { env with sendResult := s2 } false co
          (notifyGuildCore { env with sendResult := s1 } false co ledger).1
        = ((notifyGuildCore { env with sendResult := s1 } false co ledger).1,
           false, "Already posted today"))
    ∧ ¬((notifyGuildCore { env with sendResult := s1 } false co ledger).2.1 = true
        ∧ (notifyGuildCore { env with sendResult := s2 } false co
            (notifyGuildCore { env with sendResult := s1 } false co ledger).1).2.1
          = true) := by
  have key : (notifyGuildCore { env with sendResult := s1 } false co ledger).2.1 = true →
      notifyGuildCore { env with sendResult := s2 } false co
          (notifyGuildCore { env with sendResult := s1 } false co ledger).1
        = ((notifyGuildCore { env with sendResult := s1 } false co ledger).1,
           false, "Already posted today") := by
    intro h
    rcases notifyGuildCore_posted_inversion _ co ledger h with
      ⟨evt, stUTC, hpick, hparse, hch, hen, horg, hprov, hday, _, _, heq⟩
    rw [heq]
    unfold notifyGuildCore
    simp only at hpick hparse hch hen horg hprov hday
    simp [hpick, hparse, hch, hen, horg, hprov, hday, ledgerGet_ledgerSet_self]
  refine ⟨key, ?_⟩
  rintro ⟨h1, h2⟩
  rw [key h1] at h2
  simp at h2

/-- Witness for C1: a concrete fully-eligible guild posts on the first call
and the second call is the "Already posted today" no-op. -/
theorem notifyGuildCore_idempotent_same_day_witness :
    (notifyGuildCore { envW with sendResult := Except.ok () } false "" []).2.1 = true
    ∧ notifyGuildCore { envW with sendResult := Except.ok () } false ""
          (notifyGuildCore { envW with sendResult := Except.ok () } false "" []).1
        = ((notifyGuildCore { envW with sendResult := Except.ok () } false "" []).1,
           false, "Already posted today") := by
  have h1 : (notifyGuildCore { envW with sendResult := Except.ok () } false "" []).2.1
      = true := by rfl
  exact ⟨h1,
    (notifyGuildCore_idempotent_same_day envW (Except.ok ()) (Except.ok ()) "" []).1 h1⟩

end FightNight
